import Mathlib

/-!
Shallow embedding of the asynchronous logger of the task-manager repository
(`internal/logger/async.go`, `internal/logger/config.go`) and of the two
configuration readers (`getLogBufferSize`, `getLogLevel`).

Conventions of the embedding:
* `slog.Level` is an `Int` (Go defines Debug = -4, Info = 0, Warn = 4, Error = 8).
* Go `interface{}` values that can appear as attribute values are the
  inductive `JValue`; `JValue.nan` stands for a float NaN, the canonical
  value that `json.Marshal` rejects.
* `time.Time` is `GoTime` (wall-clock fields, UTC rendering); the Go zero
  time renders as `0001-01-01T00:00:00Z`, exactly as `time.Time{}.Format(time.RFC3339)`.
* `map[string]interface{}` is an association list with Go-map assignment
  semantics (`mapSet` overwrites an existing key); `json.Marshal` of such a
  map sorts the keys, which `marshalMap` reproduces.
* The concurrent system (producers, the single worker goroutine, `Close`)
  is a small-step machine `Sys`/`step`; a scheduler is a list of events.
  Go's `select` choosing uniformly among ready cases is modelled by an
  explicit boolean pick carried by the event.
-/

/-- Values a structured-log attribute can carry (`slog.Attr.Value.Any()`),
restricted to the JSON-representable kinds plus `nan`, which models a value
`json.Marshal` fails on (e.g. `math.NaN()`). -/
inductive JValue where
  | str (s : String)
  | int (n : Int)
  | jbool (b : Bool)
  | null
  | nan
deriving DecidableEq, Repr

/-- One hexadecimal digit, lower case, as used by Go's JSON `\u00XX` escapes. -/
def hexDigit (n : Nat) : Char :=
  if n < 10 then Char.ofNat ('0'.toNat + n) else Char.ofNat ('a'.toNat + (n - 10))

/-- Escape of a single character as Go's `encoding/json` encoder performs it
(HTML escaping on, the `json.Marshal` default): quote and backslash are
backslash-escaped, newline/CR/tab use the short forms, `<`, `>`, `&` and the
remaining control characters become `\u00XX`. -/
def escapeChar (c : Char) : String :=
  if c = '"' then "\\\""
  else if c = '\\' then "\\\\"
  else if c = '\n' then "\\n"
  else if c = '\r' then "\\r"
  else if c = '\t' then "\\t"
  else if c = '<' then "\\u003c"
  else if c = '>' then "\\u003e"
  else if c = '&' then "\\u0026"
  else if c.toNat < 32 then
    String.mk ['\\', 'u', '0', '0', hexDigit (c.toNat / 16), hexDigit (c.toNat % 16)]
  else String.mk [c]

/-- JSON string literal for `s` (already escaped, wrapped in quotes). -/
def jsonQuote (s : String) : String :=
  "\"" ++ String.join (s.toList.map escapeChar) ++ "\""

/-- `json.Marshal` of a single dynamic value; fails on `nan`
("json: unsupported value: NaN"). -/
def marshalValue : JValue → Except String String
  | JValue.str s => Except.ok (jsonQuote s)
  | JValue.int n => Except.ok (toString n)
  | JValue.jbool b => Except.ok (if b then "true" else "false")
  | JValue.null => Except.ok "null"
  | JValue.nan => Except.error "json: unsupported value: NaN"

/-- Lexicographic strict order on character lists (codepoint-wise); for UTF-8
strings this coincides with Go's byte-wise `<` on strings. -/
def charListLt : List Char → List Char → Bool
  | [], [] => false
  | [], _ :: _ => true
  | _ :: _, [] => false
  | a :: as, b :: bs =>
    if a.toNat < b.toNat then true
    else if b.toNat < a.toNat then false
    else charListLt as bs

/-- `a <= b` on strings, Go's byte-wise order. -/
def strLE (a b : String) : Bool := ! charListLt b.toList a.toList

/-- Insert a key/value pair into a key-sorted field list (insertion sort step),
mirroring `encoding/json` emitting map fields in ascending key order. -/
def insertByKey (p : String × JValue) : List (String × JValue) → List (String × JValue)
  | [] => [p]
  | q :: rest => if strLE p.1 q.1 then p :: q :: rest else q :: insertByKey p rest

/-- Sort an association list by key, as `json.Marshal` does for Go maps. -/
def sortByKey : List (String × JValue) → List (String × JValue)
  | [] => []
  | p :: rest => insertByKey p (sortByKey rest)

/-- Marshal the fields of a JSON object; fails if any value fails. -/
def marshalFields : List (String × JValue) → Except String (List String)
  | [] => Except.ok []
  | (k, v) :: rest =>
    match marshalValue v, marshalFields rest with
    | Except.ok vs, Except.ok restS => Except.ok ((jsonQuote k ++ ":" ++ vs) :: restS)
    | Except.error m, _ => Except.error m
    | _, Except.error m => Except.error m

/-- `json.Marshal` of a `map[string]interface{}`: keys sorted, object braces,
comma-separated `"key":value` fields; fails iff some value is unsupported. -/
def marshalMap (m : List (String × JValue)) : Except String String :=
  match marshalFields (sortByKey m) with
  | Except.ok fields => Except.ok ("\x7b" ++ String.intercalate "," fields ++ "\x7d")
  | Except.error msg => Except.error msg

/-- `slog.Level` is an integer in Go. -/
abbrev Level := Int

def LevelDebug : Level := -4
def LevelInfo : Level := 0
def LevelWarn : Level := 4
def LevelError : Level := 8

/-- Helper of `slog.Level.String`: base name plus `%+d` offset when nonzero. -/
def levelOffsetStr (base : String) (val : Int) : String :=
  if val = 0 then base
  else if 0 < val then base ++ "+" ++ toString val
  else base ++ toString val

/-- `slog.Level.String()`: the uppercase level name, with an offset suffix for
levels between the named ones. -/
def levelString (l : Level) : String :=
  if l < LevelInfo then levelOffsetStr "DEBUG" (l - LevelDebug)
  else if l < LevelWarn then levelOffsetStr "INFO" (l - LevelInfo)
  else if l < LevelError then levelOffsetStr "WARN" (l - LevelWarn)
  else levelOffsetStr "ERROR" (l - LevelError)

/-- Wall-clock timestamp (`time.Time`), UTC. The Go zero value is
year 1, month 1, day 1. -/
structure GoTime where
  year : Nat
  month : Nat
  day : Nat
  hour : Nat
  minute : Nat
  second : Nat
deriving DecidableEq, Repr

/-- The zero `time.Time`. -/
def zeroTime : GoTime := { year := 1, month := 1, day := 1, hour := 0, minute := 0, second := 0 }

def pad2 (n : Nat) : String := if n < 10 then "0" ++ toString n else toString n

def pad4 (n : Nat) : String :=
  if n < 10 then "000" ++ toString n
  else if n < 100 then "00" ++ toString n
  else if n < 1000 then "0" ++ toString n
  else toString n

/-- `t.Format(time.RFC3339)` for a UTC time. -/
def rfc3339 (t : GoTime) : String :=
  pad4 t.year ++ "-" ++ pad2 t.month ++ "-" ++ pad2 t.day ++ "T" ++
    pad2 t.hour ++ ":" ++ pad2 t.minute ++ ":" ++ pad2 t.second ++ "Z"

/-- `slog.Attr`. -/
structure Attr where
  key : String
  value : JValue
deriving DecidableEq, Repr

/-- `LogEntry` of `async.go`. -/
structure LogEntry where
  level : Level
  message : String
  time : GoTime
  attrs : List Attr
deriving DecidableEq, Repr

/-- The Go zero value of `LogEntry`, received from a closed empty channel. -/
def zeroEntry : LogEntry := { level := 0, message := "", time := zeroTime, attrs := [] }

/-- Go map assignment `m[k] = v`: overwrite the existing binding of `k`,
otherwise add one. -/
def mapSet : List (String × JValue) → String → JValue → List (String × JValue)
  | [], k, v => [(k, v)]
  | (k0, v0) :: rest, k, v =>
    if k0 = k then (k, v) :: rest else (k0, v0) :: mapSet rest k v

/-- Go map lookup. -/
def mapGet : List (String × JValue) → String → Option JValue
  | [], _ => none
  | (k0, v0) :: rest, k => if k0 = k then some v0 else mapGet rest k

/-- Assign all attributes into the map in sequence, as the
`for _, attr := range entry.Attrs` loop of `writeEntry` does. -/
def setAll (m : List (String × JValue)) : List Attr → List (String × JValue)
  | [] => m
  | a :: rest => setAll (mapSet m a.key a.value) rest

/-- The initial `logData` map of `writeEntry`: the three standard fields. -/
def baseLogData (e : LogEntry) : List (String × JValue) :=
  [("time", JValue.str (rfc3339 e.time)),
   ("level", JValue.str (levelString e.level)),
   ("message", JValue.str e.message)]

/-- The complete `logData` map of `writeEntry`: standard fields, then each
attribute assigned in order (a duplicate key overwrites). -/
def buildLogData (e : LogEntry) : List (String × JValue) :=
  setAll (baseLogData e) e.attrs

/-- The value of the last occurrence of key `k` in an attribute list,
`none` when `k` does not occur. -/
def lastValueOf (k : String) : List Attr → Option JValue
  | [] => none
  | a :: rest =>
    match lastValueOf k rest with
    | some v => some v
    | none => if a.key = k then some a.value else none

/-- Number of fields named `k` in the marshalled object. -/
def keyCount (m : List (String × JValue)) (k : String) : Nat :=
  (m.map Prod.fst).count k

/-- The output sink (`io.Writer`). `failing = true` models a writer whose
`Write` returns an error. -/
structure Sink where
  lines : List String
  failing : Bool
deriving DecidableEq, Repr

/-- `io.Writer.Write`: either appends the data and reports the byte count, or
fails and reports an error. -/
def sinkWrite (s : Sink) (line : String) : Sink × Except String Nat :=
  if s.failing then (s, Except.error "write error")
  else ({ s with lines := s.lines ++ [line] }, Except.ok line.length)

/-- `AsyncLogger.writeEntry`: level filter, marshal (errors swallowed:
`if err != nil \x7b return \x7d`), newline append, write with the result
discarded (`_, _ = l.output.Write(jsonData)`). -/
def writeEntry (minLevel : Level) (s : Sink) (e : LogEntry) : Sink :=
  if e.level < minLevel then s
  else
    match marshalMap (buildLogData e) with
    | Except.error _ => s
    | Except.ok js => (sinkWrite s (js ++ "\n")).1

/-- `AsyncLogger.log` at one scheduling instant. `ctxDone` is whether the
caller's context is already done; `pickSend` is the choice Go's `select`
makes when both the send case and the `ctx.Done()` case are ready (Go picks
uniformly at random). Result: `none` when the select would block (queue full
and context not done), otherwise the new queue and whether the entry was
accepted. -/
def logStep (minLevel : Level) (cap : Nat) (ctxDone : Bool) (pickSend : Bool)
    (q : List LogEntry) (e : LogEntry) : Option (List LogEntry × Bool) :=
  if e.level < minLevel then some (q, false)
  else if q.length < cap then
    if ctxDone then
      if pickSend then some (q ++ [e], true) else some (q, false)
    else some (q ++ [e], true)
  else if ctxDone then some (q, false)
  else none

/-- Phase of the worker goroutine: the main select loop, the
`for len(l.ch) > 0` drain loop entered on `ctx.Done()`, or returned. -/
inductive WPhase where
  | running
  | draining
  | stopped
deriving DecidableEq, Repr

/-- Global state of the logger system: channel contents, channel/context
flags, worker phase, `Close` progress, the sink, and the ghost history
`accepted` of entries successfully enqueued (in acceptance order). -/
structure Sys where
  cap : Nat
  minLevel : Level
  q : List LogEntry
  chClosed : Bool
  ctxDone : Bool
  phase : WPhase
  closeCalled : Bool
  closeReturned : Bool
  sink : Sink
  accepted : List LogEntry
deriving DecidableEq, Repr

/-- Scheduler events: a producer runs `log` to completion of its select, the
start context is cancelled, the worker's select takes the receive case or the
`ctx.Done()` case, one iteration or the exit of the drain loop, `Close` is
invoked (`close(l.ch)`), or `Close`'s `wg.Wait()` returns. -/
inductive Ev where
  | emit (callerCtxDone : Bool) (pickSend : Bool) (e : LogEntry)
  | cancel
  | workerRecv
  | workerCtx
  | drainStep
  | drainFin
  | closeCall
  | closeRet
deriving DecidableEq, Repr

/-- One small step of the system; `none` when the event is not enabled
(its goroutine would block, or the action is erroneous, e.g. sending on the
closed channel or a second `Close`). A receive on the closed empty channel
succeeds immediately with the zero `LogEntry` — the worker's select has no
`ok` check, so it treats that zero value as a normal entry. -/
def step (s : Sys) (ev : Ev) : Option Sys :=
  match ev with
  | Ev.emit cd pick e =>
    if s.chClosed then none
    else
      match logStep s.minLevel s.cap cd pick s.q e with
      | none => none
      | some (q2, acc) =>
        some { s with q := q2, accepted := if acc then s.accepted ++ [e] else s.accepted }
  | Ev.cancel => some { s with ctxDone := true }
  | Ev.workerRecv =>
    if s.phase = WPhase.running then
      match s.q with
      | e :: rest => some { s with q := rest, sink := writeEntry s.minLevel s.sink e }
      | [] =>
        if s.chClosed then some { s with sink := writeEntry s.minLevel s.sink zeroEntry }
        else none
    else none
  | Ev.workerCtx =>
    if s.phase = WPhase.running ∧ s.ctxDone then some { s with phase := WPhase.draining }
    else none
  | Ev.drainStep =>
    if s.phase = WPhase.draining then
      match s.q with
      | e :: rest => some { s with q := rest, sink := writeEntry s.minLevel s.sink e }
      | [] => none
    else none
  | Ev.drainFin =>
    if s.phase = WPhase.draining ∧ s.q = [] then some { s with phase := WPhase.stopped }
    else none
  | Ev.closeCall =>
    if s.closeCalled then none
    else some { s with chClosed := true, closeCalled := true }
  | Ev.closeRet =>
    if s.closeCalled ∧ s.phase = WPhase.stopped ∧ ¬ s.closeReturned then
      some { s with closeReturned := true }
    else none

/-- Run a schedule of events from a state; `none` if some event is not enabled. -/
def run (s : Sys) : List Ev → Option Sys
  | [] => some s
  | ev :: rest =>
    match step s ev with
    | none => none
    | some s2 => run s2 rest

/-- The state right after `New` + `Start`: empty queue, open channel, live
context, worker in its select loop, empty healthy sink. -/
def initSys (cap : Nat) (minLevel : Level) : Sys :=
  { cap := cap, minLevel := minLevel, q := [], chClosed := false, ctxDone := false,
    phase := WPhase.running, closeCalled := false, closeReturned := false,
    sink := { lines := [], failing := false }, accepted := [] }

/-- `defaultBufferSize` of `config.go`. -/
def defaultBufferSize : Int := 100

/-- Parse a digit character. -/
def digitVal (c : Char) : Option Nat :=
  if '0' ≤ c ∧ c ≤ '9' then some (c.toNat - '0'.toNat) else none

/-- Parse a nonempty digit string into a natural number; `none` on any
non-digit. -/
def parseNatDigits (cs : List Char) : Option Nat :=
  cs.foldl
    (fun acc c =>
      match acc, digitVal c with
      | some a, some d => some (a * 10 + d)
      | _, _ => none)
    (some 0)

/-- `strconv.Atoi`: optional sign, at least one digit, 64-bit range check.
Errors are `strconv.ErrSyntax` / `strconv.ErrRange`. -/
def goAtoi (s : String) : Except String Int :=
  let cs := s.toList
  let signed : Bool × List Char :=
    match cs with
    | '-' :: rest => (true, rest)
    | '+' :: rest => (false, rest)
    | _ => (false, cs)
  if signed.2 = [] then Except.error "invalid syntax"
  else
    match parseNatDigits signed.2 with
    | none => Except.error "invalid syntax"
    | some n =>
      let v : Int := if signed.1 then -(n : Int) else (n : Int)
      if v < -(2 ^ 63) ∨ 2 ^ 63 - 1 < v then Except.error "value out of range"
      else Except.ok v

/-- `getLogBufferSize` of `config.go`, as a function of the string
`os.Getenv("LOG_BUFFER_SIZE")` returns (the empty string when the variable is
unset). The Go `panic` is modelled as `Except.error`. -/
def getLogBufferSize (env : String) : Except String Int :=
  if env = "" then Except.ok defaultBufferSize
  else
    match goAtoi env with
    | Except.error _ =>
      Except.error ("LOG_BUFFER_SIZE must be a positive integer, got: " ++ env)
    | Except.ok n =>
      if n ≤ 0 then
        Except.error ("LOG_BUFFER_SIZE must be a positive integer, got: " ++ env)
      else Except.ok n

/-- `getLogLevel` of `config.go`, as a function of the string
`os.Getenv("LOG_LEVEL")` returns. -/
def getLogLevel (env : String) : Level :=
  if env = "DEBUG" then LevelDebug
  else if env = "INFO" then LevelInfo
  else if env = "WARN" then LevelWarn
  else if env = "ERROR" then LevelError
  else LevelInfo

/-- `NewFromEnv` followed by `Start`: configuration resolved from the two
environment strings; a configuration panic aborts startup with no system
constructed. -/
def NewFromEnv (bufEnv levelEnv : String) : Except String Sys :=
  match getLogBufferSize bufEnv with
  | Except.error m => Except.error m
  | Except.ok n => Except.ok (initSys n.toNat (getLogLevel levelEnv))

/-- A DEBUG-level entry, below the default minimum level. -/
def dbgEntry : LogEntry := { level := LevelDebug, message := "x", time := zeroTime, attrs := [] }

/-- A WARN-level entry. -/
def warnEntry : LogEntry := { level := LevelWarn, message := "z", time := zeroTime, attrs := [] }

/-- An INFO entry with one integer attribute. -/
def infoCountEntry : LogEntry :=
  { level := LevelInfo, message := "y", time := zeroTime,
    attrs := [{ key := "count", value := JValue.int 1 }] }

/-- An entry carrying the same attribute key twice. -/
def dupKeyEntry : LogEntry :=
  { level := LevelInfo, message := "m", time := zeroTime,
    attrs := [{ key := "k", value := JValue.str "a" }, { key := "k", value := JValue.str "b" }] }

/-- An entry whose attribute collides with the reserved `time` field. -/
def timeAttrEntry : LogEntry :=
  { level := LevelInfo, message := "m", time := zeroTime,
    attrs := [{ key := "time", value := JValue.str "not-a-timestamp" }] }

/-- An entry with an attribute value `json.Marshal` rejects. -/
def nanAttrEntry : LogEntry :=
  { level := LevelInfo, message := "bad", time := zeroTime,
    attrs := [{ key := "x", value := JValue.nan }] }

/-- An entry enqueued after the worker has already terminated. -/
def lostEntry : LogEntry := { level := LevelInfo, message := "lost", time := zeroTime, attrs := [] }

/-- An entry emitted through an already-cancelled caller context. -/
def racedEntry : LogEntry := { level := LevelInfo, message := "raced", time := zeroTime, attrs := [] }

/-- JSON line written for `dupKeyEntry`: the duplicate key appears once. -/
def dupKeyLine : String :=
  "\x7b\"k\":\"b\",\"level\":\"INFO\",\"message\":\"m\",\"time\":\"0001-01-01T00:00:00Z\"\x7d\n"

/-- JSON line written for `racedEntry`. -/
def racedLine : String :=
  "\x7b\"level\":\"INFO\",\"message\":\"raced\",\"time\":\"0001-01-01T00:00:00Z\"\x7d\n"

/-- JSON object of `infoCountEntry`. -/
def infoCountJson : String :=
  "\x7b\"count\":1,\"level\":\"INFO\",\"message\":\"y\",\"time\":\"0001-01-01T00:00:00Z\"\x7d"

/-- `json.Marshal` of the zero `LogEntry` received from a closed empty channel. -/
def zeroEntryJson : String :=
  "\x7b\"level\":\"INFO\",\"message\":\"\",\"time\":\"0001-01-01T00:00:00Z\"\x7d"

/-- One full line the worker writes for the zero `LogEntry`. -/
def zeroEntryLine : String := zeroEntryJson ++ "\n"

/-- The state right after `Close()` is invoked on a started logger with zero
emissions and a never-cancelled start context, after `n` accumulated
zero-entry writes. -/
def closeNoCancelSys (L : List String) : Sys :=
  { (initSys 100 LevelInfo) with
    chClosed := true, closeCalled := true,
    sink := { lines := L, failing := false } }

/-! Helper lemmas about the Go-map embedding. -/

theorem mapGet_mapSet_self (m : List (String × JValue)) (k : String) (v : JValue) :
    mapGet (mapSet m k v) k = some v := by
  induction m with
  | nil => simp [mapSet, mapGet]
  | cons p rest ih =>
    obtain ⟨k0, v0⟩ := p
    by_cases h : k0 = k
    · simp [mapSet, h, mapGet]
    · simp [mapSet, h, mapGet, ih]

theorem mapGet_mapSet_other (m : List (String × JValue)) (k k0 : String) (v : JValue)
    (h : k ≠ k0) : mapGet (mapSet m k0 v) k = mapGet m k := by
  induction m with
  | nil => simp [mapSet, mapGet, Ne.symm h]
  | cons p rest ih =>
    obtain ⟨k1, v1⟩ := p
    by_cases h1 : k1 = k0
    · subst h1
      simp [mapSet, mapGet, Ne.symm h]
    · by_cases h2 : k1 = k
      · simp [mapSet, mapGet, h1, h2, h]
      · simp [mapSet, mapGet, h1, h2, ih]

theorem keys_mapSet_of_mem (m : List (String × JValue)) (k : String) (v : JValue)
    (h : k ∈ m.map Prod.fst) : (mapSet m k v).map Prod.fst = m.map Prod.fst := by
  induction m with
  | nil => simp at h
  | cons p rest ih =>
    obtain ⟨k0, v0⟩ := p
    by_cases h0 : k0 = k
    · simp [mapSet, h0]
    · have hr : k ∈ rest.map Prod.fst := by
        rw [List.map_cons] at h
        rcases List.mem_cons.mp h with h1 | h1
        · exact absurd h1.symm h0
        · exact h1
      simp [mapSet, h0, ih hr]

theorem keys_mapSet_of_not_mem (m : List (String × JValue)) (k : String) (v : JValue)
    (h : k ∉ m.map Prod.fst) : (mapSet m k v).map Prod.fst = m.map Prod.fst ++ [k] := by
  induction m with
  | nil => simp [mapSet]
  | cons p rest ih =>
    obtain ⟨k0, v0⟩ := p
    have h0 : k0 ≠ k := by
      intro hh
      exact h (by simp [hh])
    have hr : k ∉ rest.map Prod.fst := by
      intro hh
      exact h (by simp [hh])
    simp [mapSet, h0, ih hr]

theorem nodup_keys_mapSet (m : List (String × JValue)) (k : String) (v : JValue)
    (h : (m.map Prod.fst).Nodup) : ((mapSet m k v).map Prod.fst).Nodup := by
  by_cases hm : k ∈ m.map Prod.fst
  · rw [keys_mapSet_of_mem m k v hm]
    exact h
  · rw [keys_mapSet_of_not_mem m k v hm]
    simp [List.nodup_append, h, hm]

theorem mem_keys_of_mapGet (m : List (String × JValue)) (k : String) (v : JValue)
    (h : mapGet m k = some v) : k ∈ m.map Prod.fst := by
  induction m with
  | nil => simp [mapGet] at h
  | cons p rest ih =>
    obtain ⟨k0, v0⟩ := p
    by_cases h0 : k0 = k
    · simp [h0]
    · rw [mapGet, if_neg h0] at h
      simp [ih h]

theorem mapGet_setAll_not_mem (attrs : List Attr) (m : List (String × JValue)) (k : String)
    (h : k ∉ attrs.map Attr.key) : mapGet (setAll m attrs) k = mapGet m k := by
  induction attrs generalizing m with
  | nil => rfl
  | cons a rest ih =>
    have h1 : k ≠ a.key := by
      intro hh
      exact h (by simp [hh])
    have h2 : k ∉ rest.map Attr.key := by
      intro hh
      exact h (by simp [hh])
    rw [setAll, ih _ h2, mapGet_mapSet_other _ _ _ _ h1]

theorem lastValueOf_none_iff (k : String) (attrs : List Attr) :
    lastValueOf k attrs = none ↔ k ∉ attrs.map Attr.key := by
  induction attrs with
  | nil => simp [lastValueOf]
  | cons a rest ih =>
    rw [lastValueOf]
    cases hl : lastValueOf k rest with
    | some v =>
      simp only [hl]
      constructor
      · intro hh
        cases hh
      · intro hh
        have : k ∉ rest.map Attr.key := by
          intro hx
          exact hh (by simp [hx])
        rw [ih.mpr this] at hl
        cases hl
    | none =>
      have hr : k ∉ rest.map Attr.key := ih.mp hl
      by_cases hk : a.key = k
      · simp [hl, hk, hr]
      · simp [hl, hk, hr, Ne.symm hk]

theorem mapGet_setAll_mem (attrs : List Attr) (m : List (String × JValue)) (k : String)
    (h : k ∈ attrs.map Attr.key) : mapGet (setAll m attrs) k = lastValueOf k attrs := by
  induction attrs generalizing m with
  | nil => simp at h
  | cons a rest ih =>
    rw [setAll, lastValueOf]
    cases hl : lastValueOf k rest with
    | some v =>
      have hmem : k ∈ rest.map Attr.key := by
        by_contra hn
        rw [(lastValueOf_none_iff k rest).mpr hn] at hl
        cases hl
      rw [ih _ hmem, hl]
    | none =>
      have hnm : k ∉ rest.map Attr.key := (lastValueOf_none_iff k rest).mp hl
      have hk : a.key = k := by
        rw [List.map_cons] at h
        rcases List.mem_cons.mp h with h1 | h1
        · exact h1.symm
        · exact absurd h1 hnm
      rw [mapGet_setAll_not_mem _ _ _ hnm, hk, mapGet_mapSet_self]
      simp [hk]

theorem keys_setAll_disjoint (attrs : List Attr) (m : List (String × JValue))
    (hd : ∀ a ∈ attrs, a.key ∉ m.map Prod.fst) (hn : (attrs.map Attr.key).Nodup) :
    (setAll m attrs).map Prod.fst = m.map Prod.fst ++ attrs.map Attr.key := by
  induction attrs generalizing m with
  | nil => simp [setAll]
  | cons a rest ih =>
    have h1 : a.key ∉ m.map Prod.fst := hd a (by simp)
    rw [List.map_cons] at hn
    have hhead : a.key ∉ rest.map Attr.key := (List.nodup_cons.mp hn).1
    have htail : (rest.map Attr.key).Nodup := (List.nodup_cons.mp hn).2
    have h2 : ∀ b ∈ rest, b.key ∉ (mapSet m a.key a.value).map Prod.fst := by
      intro b hb
      rw [keys_mapSet_of_not_mem _ _ _ h1]
      intro hmem
      rcases List.mem_append.mp hmem with hx | hx
      · exact hd b (by simp [hb]) hx
      · have : b.key = a.key := by simpa using hx
        exact hhead (this ▸ List.mem_map_of_mem Attr.key hb)
    rw [setAll, ih _ h2 htail, keys_mapSet_of_not_mem _ _ _ h1]
    simp

theorem nodup_keys_setAll (attrs : List Attr) (m : List (String × JValue))
    (h : (m.map Prod.fst).Nodup) : ((setAll m attrs).map Prod.fst).Nodup := by
  induction attrs generalizing m with
  | nil => exact h
  | cons a rest ih => exact ih _ (nodup_keys_mapSet m a.key a.value h)

theorem lastValueOf_nodup_mem (attrs : List Attr) (a : Attr)
    (hn : (attrs.map Attr.key).Nodup) (h : a ∈ attrs) :
    lastValueOf a.key attrs = some a.value := by
  induction attrs with
  | nil => simp at h
  | cons b rest ih =>
    rw [List.map_cons] at hn
    rw [lastValueOf]
    rcases List.mem_cons.mp h with h1 | h2
    · subst h1
      have hr : a.key ∉ rest.map Attr.key := (List.nodup_cons.mp hn).1
      rw [(lastValueOf_none_iff a.key rest).mpr hr]
      simp
    · rw [ih (List.nodup_cons.mp hn).2 h2]

/-! Facts about single writes used by the system-level theorems. -/

theorem writeEntry_zeroEntry (L : List String) :
    writeEntry LevelInfo { lines := L, failing := false } zeroEntry =
      { lines := L ++ [zeroEntryLine], failing := false } := rfl

theorem close_spin_lemma (n : Nat) (L : List String) :
    run (closeNoCancelSys L) (List.replicate n Ev.workerRecv) =
      some (closeNoCancelSys (L ++ List.replicate n zeroEntryLine)) := by
  induction n generalizing L with
  | zero => simp [run]
  | succ n ih =>
    rw [List.replicate_succ]
    have hstep : step (closeNoCancelSys L) Ev.workerRecv =
        some (closeNoCancelSys (L ++ [zeroEntryLine])) := rfl
    simp only [run, hstep]
    rw [ih (L ++ [zeroEntryLine])]
    simp [List.replicate_succ, List.append_assoc]

/-- C1 — Shutdown completeness fails on the code: after the start context is
cancelled the worker drains and terminates; an entry can then still be
successfully enqueued (the channel is not yet closed and has space), and the
subsequent `Close()` (close + `wg.Wait`, which returns at once because the
worker is already gone) returns with that entry still sitting unwritten in
the queue. The trace below exhibits this: `closeReturned` is true, the entry
was accepted before `Close`, yet the sink holds zero lines. -/
theorem c1_close_returns_with_lost_entry :
    (run (initSys 100 LevelInfo)
        [Ev.cancel, Ev.workerCtx, Ev.drainFin, Ev.emit false true lostEntry,
         Ev.closeCall, Ev.closeRet]).map
      (fun s => (s.closeReturned, s.phase, s.accepted, s.sink.lines, s.q)) =
      some (true, WPhase.stopped, [lostEntry], [], [lostEntry]) := by decide

/-- C2 — The drop-on-cancelled-context policy fails on the code: `log` uses a
two-case `select`, and when the caller's context is already done while the
buffer has space, both cases are ready and Go chooses uniformly at random.
When the send case wins (`pickSend = true`), the entry is enqueued despite
the done context, and the worker later writes its line to the sink — the
code's own comment ("if the context is done, it returns immediately")
notwithstanding. -/
theorem c2_done_ctx_enqueues_and_writes :
    (run (initSys 100 LevelInfo) [Ev.emit true true racedEntry, Ev.workerRecv]).map
      (fun s => (s.accepted, s.sink.lines)) =
      some ([racedEntry], [racedLine]) := by decide

/-- C4 — Empty-close termination fails on the code: `Close()` closes the
channel, but the worker's select has no `ok` check and never exits on channel
closure; unless the start context was cancelled, every subsequent receive on
the closed empty channel yields the zero `LogEntry` instantly, which passes
the INFO filter and is written. After `Close()` and `n` worker iterations the
worker is still in `running`, `Close` has not returned (`closeRet` is not even
enabled), and the sink holds `n` zero-entry lines — not zero lines, and no
termination. -/
theorem c4_close_without_cancel_never_terminates (n : Nat) :
    run (initSys 100 LevelInfo) (Ev.closeCall :: List.replicate n Ev.workerRecv) =
      some (closeNoCancelSys (List.replicate n zeroEntryLine)) ∧
    (closeNoCancelSys (List.replicate n zeroEntryLine)).phase = WPhase.running ∧
    (closeNoCancelSys (List.replicate n zeroEntryLine)).closeReturned = false ∧
    (closeNoCancelSys (List.replicate n zeroEntryLine)).sink.lines.length = n ∧
    step (closeNoCancelSys (List.replicate n zeroEntryLine)) Ev.closeRet = none := by
  have hstep0 : step (initSys 100 LevelInfo) Ev.closeCall = some (closeNoCancelSys []) := rfl
  refine ⟨?_, rfl, rfl, ?_, rfl⟩
  · simp only [run, hstep0]
    have h := close_spin_lemma n []
    simpa using h
  · simp [closeNoCancelSys]

/-- C3 — Level filtering: an entry strictly below the configured minimum level
is discarded by `log` before any enqueue (queue unchanged, not accepted) and
by `writeEntry` before any write (sink unchanged); an entry at or above the
minimum level passes the emission-time filter (it is enqueued whenever the
buffer has space and the context is live) and passes the write-time filter
(its JSON line is appended whenever marshalling succeeds and the sink is
healthy). -/
theorem c3_level_filtering (minLevel : Level) (cap : Nat) (cd pick : Bool)
    (q : List LogEntry) (s : Sink) (e : LogEntry) :
    (e.level < minLevel →
      logStep minLevel cap cd pick q e = some (q, false) ∧
      writeEntry minLevel s e = s) ∧
    (minLevel ≤ e.level → q.length < cap → cd = false →
      logStep minLevel cap cd pick q e = some (q ++ [e], true)) ∧
    (minLevel ≤ e.level → s.failing = false →
      ∀ js, marshalMap (buildLogData e) = Except.ok js →
        writeEntry minLevel s e = { lines := s.lines ++ [js ++ "\n"], failing := false }) := by
  refine ⟨?_, ?_, ?_⟩
  · intro h
    constructor
    · simp [logStep, h]
    · simp [writeEntry, h]
  · intro h1 h2 h3
    simp [logStep, not_lt.mpr h1, h2, h3]
  · intro h1 h2 js hm
    obtain ⟨lines, failing⟩ := s
    simp only at h2
    subst h2
    simp [writeEntry, not_lt.mpr h1, hm, sinkWrite]

/-- Witness for C3 at the spec's own scenario (`minimumLevel = WARN`): a DEBUG
emission leaves queue and sink untouched, a WARN emission is accepted and its
line written. -/
theorem c3_level_filtering_witness :
    (logStep LevelWarn 2 false true [] dbgEntry = some ([], false) ∧
      writeEntry LevelWarn { lines := [], failing := false } dbgEntry =
        { lines := [], failing := false }) ∧
    logStep LevelWarn 2 false true [] warnEntry = some ([warnEntry], true) ∧
    writeEntry LevelWarn { lines := [], failing := false } warnEntry =
      { lines := ["\x7b\"level\":\"WARN\",\"message\":\"z\",\"time\":\"0001-01-01T00:00:00Z\"\x7d\n"],
        failing := false } :=
  ⟨(c3_level_filtering LevelWarn 2 false true [] { lines := [], failing := false } dbgEntry).1
      (by decide),
   (c3_level_filtering LevelWarn 2 false true [] { lines := [], failing := false } warnEntry).2.1
      (by decide) (by decide) rfl,
   (c3_level_filtering LevelWarn 2 false true [] { lines := [], failing := false } warnEntry).2.2
      (by decide) rfl
      "\x7b\"level\":\"WARN\",\"message\":\"z\",\"time\":\"0001-01-01T00:00:00Z\"\x7d" rfl⟩

/-- C5 counterexample — the claim "one top-level field per attribute supplied"
fails for an entry carrying the same key twice: the line written for
`dupKeyEntry` (two attributes, both keyed `k`) is a JSON object with 4 fields,
not 3 + 2 = 5; the duplicate collapses to a single `"k"` field holding the
last value. -/
theorem c5_counterexample_dup_fields :
    writeEntry LevelInfo { lines := [], failing := false } dupKeyEntry =
      { lines := [dupKeyLine], failing := false } ∧
    (buildLogData dupKeyEntry).map Prod.fst = ["time", "level", "message", "k"] ∧
    (buildLogData dupKeyEntry).length = 4 ∧
    dupKeyEntry.attrs.length = 2 ∧
    (buildLogData dupKeyEntry).length ≠ 3 + dupKeyEntry.attrs.length := by decide

/-- C5 (amended) — every line written for an entry whose attribute keys are
pairwise distinct and disjoint from `time`/`level`/`message` is the
newline-terminated `json.Marshal` of an object holding exactly the fields
`time` (the entry's timestamp in RFC3339), `level` (the uppercase level
name), `message`, plus one top-level field per attribute with that
attribute's value. -/
theorem c5_json_fields (minLevel : Level) (s : Sink) (e : LogEntry) (js : String)
    (hlvl : minLevel ≤ e.level) (hfail : s.failing = false)
    (hm : marshalMap (buildLogData e) = Except.ok js)
    (hnd : (e.attrs.map Attr.key).Nodup)
    (hdisj : ∀ a ∈ e.attrs, a.key ≠ "time" ∧ a.key ≠ "level" ∧ a.key ≠ "message") :
    writeEntry minLevel s e = { lines := s.lines ++ [js ++ "\n"], failing := false } ∧
    (buildLogData e).map Prod.fst = ["time", "level", "message"] ++ e.attrs.map Attr.key ∧
    mapGet (buildLogData e) "time" = some (JValue.str (rfc3339 e.time)) ∧
    mapGet (buildLogData e) "level" = some (JValue.str (levelString e.level)) ∧
    mapGet (buildLogData e) "message" = some (JValue.str e.message) ∧
    ∀ a ∈ e.attrs, mapGet (buildLogData e) a.key = some a.value := by
  have hbase : (baseLogData e).map Prod.fst = ["time", "level", "message"] := rfl
  have hd : ∀ a ∈ e.attrs, a.key ∉ (baseLogData e).map Prod.fst := by
    intro a ha
    rw [hbase]
    obtain ⟨h1, h2, h3⟩ := hdisj a ha
    simp [h1, h2, h3]
  have hnotmem : ∀ kk : String, (∀ a ∈ e.attrs, a.key ≠ kk) → kk ∉ e.attrs.map Attr.key := by
    intro kk hkk hmem
    obtain ⟨a, ha, hk⟩ := List.mem_map.mp hmem
    exact hkk a ha hk
  refine ⟨?_, ?_, ?_, ?_, ?_, ?_⟩
  · obtain ⟨lines, failing⟩ := s
    simp only at hfail
    subst hfail
    simp [writeEntry, not_lt.mpr hlvl, hm, sinkWrite]
  · have h := keys_setAll_disjoint e.attrs (baseLogData e) hd hnd
    rw [hbase] at h
    exact h
  · have h : mapGet (buildLogData e) "time" = mapGet (baseLogData e) "time" :=
      mapGet_setAll_not_mem e.attrs (baseLogData e) "time"
        (hnotmem "time" (fun a ha => (hdisj a ha).1))
    rw [h]
    rfl
  · have h : mapGet (buildLogData e) "level" = mapGet (baseLogData e) "level" :=
      mapGet_setAll_not_mem e.attrs (baseLogData e) "level"
        (hnotmem "level" (fun a ha => (hdisj a ha).2.1))
    rw [h]
    rfl
  · have h : mapGet (buildLogData e) "message" = mapGet (baseLogData e) "message" :=
      mapGet_setAll_not_mem e.attrs (baseLogData e) "message"
        (hnotmem "message" (fun a ha => (hdisj a ha).2.2))
    rw [h]
    rfl
  · intro a ha
    have h : mapGet (buildLogData e) a.key = lastValueOf a.key e.attrs :=
      mapGet_setAll_mem e.attrs (baseLogData e) a.key (List.mem_map_of_mem Attr.key ha)
    rw [h, lastValueOf_nodup_mem e.attrs a hnd ha]

/-- Witness for C5 (amended) at the spec's own scenario: the INFO entry `y`
with attribute `count = 1`. -/
theorem c5_json_fields_witness :
    writeEntry LevelInfo { lines := [], failing := false } infoCountEntry =
      { lines := [infoCountJson ++ "\n"], failing := false } ∧
    (buildLogData infoCountEntry).map Prod.fst =
      ["time", "level", "message"] ++ infoCountEntry.attrs.map Attr.key :=
  ⟨(c5_json_fields LevelInfo { lines := [], failing := false } infoCountEntry infoCountJson
      (by decide) rfl rfl (by decide) (by decide)).1,
   (c5_json_fields LevelInfo { lines := [], failing := false } infoCountEntry infoCountJson
      (by decide) rfl rfl (by decide) (by decide)).2.1⟩

/-- C6 — Buffer-capacity configuration: with the environment variable unset
(`os.Getenv` returns the empty string) the logger is constructed with
capacity 100 and an empty sink; with any nonempty value that `strconv.Atoi`
rejects or parses to an integer `<= 0`, startup panics (`Except.error`) and
no logger state is constructed at all, rather than falling back to the
default. -/
theorem c6_buffer_size_config (s lv : String) :
    NewFromEnv "" lv = Except.ok (initSys 100 (getLogLevel lv)) ∧
    (initSys 100 (getLogLevel lv)).cap = 100 ∧
    (initSys 100 (getLogLevel lv)).sink.lines = [] ∧
    (s ≠ "" →
      ((∃ m, goAtoi s = Except.error m) ∨ (∃ n, goAtoi s = Except.ok n ∧ n ≤ 0)) →
      ∃ m, NewFromEnv s lv = Except.error m) := by
  refine ⟨rfl, rfl, rfl, ?_⟩
  intro hne hbad
  have hbuf : getLogBufferSize s =
      Except.error ("LOG_BUFFER_SIZE must be a positive integer, got: " ++ s) := by
    rcases hbad with ⟨m, hm⟩ | ⟨n, hn, hle⟩
    · simp [getLogBufferSize, hne, hm]
    · simp [getLogBufferSize, hne, hn, hle]
  refine ⟨"LOG_BUFFER_SIZE must be a positive integer, got: " ++ s, ?_⟩
  simp [NewFromEnv, hbuf]

/-- Witness for C6: unset env yields capacity 100; the spec's `"-5"` scenario
and a non-numeric `"abc"` both abort startup. -/
theorem c6_buffer_size_config_witness :
    NewFromEnv "" "" = Except.ok (initSys 100 LevelInfo) ∧
    (∃ m, NewFromEnv "-5" "" = Except.error m) ∧
    (∃ m, NewFromEnv "abc" "" = Except.error m) :=
  ⟨(c6_buffer_size_config "" "").1,
   (c6_buffer_size_config "-5" "").2.2.2 (by decide) (Or.inr ⟨-5, rfl, by decide⟩),
   (c6_buffer_size_config "abc" "").2.2.2 (by decide) (Or.inl ⟨"invalid syntax", rfl⟩)⟩

/-- C7 — Duplicate attribute keys: when a key occurs more than once in an
entry's attribute sequence, the marshalled JSON object carries that key
exactly once, bound to the value of the last occurrence (`lastValueOf`),
because each assignment into the Go map overwrites its predecessor. -/
theorem c7_duplicate_last_wins (e : LogEntry) (k : String)
    (hdup : 2 ≤ (e.attrs.map Attr.key).count k) :
    keyCount (buildLogData e) k = 1 ∧
    mapGet (buildLogData e) k = lastValueOf k e.attrs := by
  have hmem : k ∈ e.attrs.map Attr.key := by
    have hpos : 0 < (e.attrs.map Attr.key).count k := lt_of_lt_of_le (by norm_num) hdup
    exact List.count_pos_iff.mp hpos
  have hget : mapGet (buildLogData e) k = lastValueOf k e.attrs :=
    mapGet_setAll_mem e.attrs (baseLogData e) k hmem
  have hbasend : ((baseLogData e).map Prod.fst).Nodup := by
    have hb : (baseLogData e).map Prod.fst = ["time", "level", "message"] := rfl
    rw [hb]
    decide
  have hnodup : ((buildLogData e).map Prod.fst).Nodup := nodup_keys_setAll e.attrs _ hbasend
  have hsome : ∃ v, lastValueOf k e.attrs = some v := by
    cases hlv : lastValueOf k e.attrs with
    | none => exact absurd hmem ((lastValueOf_none_iff k e.attrs).mp hlv)
    | some v => exact ⟨v, rfl⟩
  obtain ⟨v, hv⟩ := hsome
  have hkmem : k ∈ (buildLogData e).map Prod.fst :=
    mem_keys_of_mapGet _ _ v (by rw [hget, hv])
  exact ⟨List.count_eq_one_of_mem hnodup hkmem, hget⟩

/-- Witness for C7 at `dupKeyEntry` (key `k` supplied twice). -/
theorem c7_duplicate_last_wins_witness :
    keyCount (buildLogData dupKeyEntry) "k" = 1 ∧
    mapGet (buildLogData dupKeyEntry) "k" = lastValueOf "k" dupKeyEntry.attrs :=
  c7_duplicate_last_wins dupKeyEntry "k" (by decide)

/-- C8 — Swallowed failures: if marshalling the entry's log data fails,
`writeEntry` drops the entry and returns the sink untouched; if the sink's
`Write` fails, the result is discarded (`_, _ =`) and the sink is likewise
unchanged. In neither case does any error value escape: the codomain of the
write path is the sink state alone. -/
theorem c8_failures_swallowed (minLevel : Level) (s : Sink) (e : LogEntry) :
    (∀ msg, marshalMap (buildLogData e) = Except.error msg → writeEntry minLevel s e = s) ∧
    (s.failing = true → writeEntry minLevel s e = s) := by
  constructor
  · intro msg hm
    by_cases h : e.level < minLevel
    · simp [writeEntry, h]
    · simp [writeEntry, h, hm]
  · intro hf
    by_cases h : e.level < minLevel
    · simp [writeEntry, h]
    · cases hmm : marshalMap (buildLogData e) with
      | error m => simp [writeEntry, h, hmm]
      | ok js => simp [writeEntry, h, hmm, sinkWrite, hf]

/-- Witness for C8: a NaN-valued attribute makes `json.Marshal` fail and the
entry is dropped silently; a failing writer leaves the sink unchanged. -/
theorem c8_failures_swallowed_witness :
    writeEntry LevelInfo { lines := [], failing := false } nanAttrEntry =
      { lines := [], failing := false } ∧
    writeEntry LevelInfo { lines := [], failing := true } infoCountEntry =
      { lines := [], failing := true } :=
  ⟨(c8_failures_swallowed LevelInfo { lines := [], failing := false } nanAttrEntry).1
      "json: unsupported value: NaN" rfl,
   (c8_failures_swallowed LevelInfo { lines := [], failing := true } infoCountEntry).2 rfl⟩

/-- C9 — Level configuration fallback: the four exact strings map to their
levels; any other value of the environment variable (unset reads as the empty
string, unrecognized strings included) yields `INFO` with no error. -/
theorem c9_log_level_fallback (s : String) :
    getLogLevel "DEBUG" = LevelDebug ∧ getLogLevel "INFO" = LevelInfo ∧
    getLogLevel "WARN" = LevelWarn ∧ getLogLevel "ERROR" = LevelError ∧
    (s ≠ "DEBUG" → s ≠ "INFO" → s ≠ "WARN" → s ≠ "ERROR" → getLogLevel s = LevelInfo) := by
  refine ⟨rfl, rfl, rfl, rfl, ?_⟩
  intro h1 h2 h3 h4
  simp [getLogLevel, h1, h2, h3, h4]

/-- Witness for C9: an unrecognized value and the unset (empty) value both
fall back to `INFO`. -/
theorem c9_log_level_fallback_witness :
    getLogLevel "verbose" = LevelInfo ∧ getLogLevel "" = LevelInfo :=
  ⟨(c9_log_level_fallback "verbose").2.2.2.2 (by decide) (by decide) (by decide) (by decide),
   (c9_log_level_fallback "").2.2.2.2 (by decide) (by decide) (by decide) (by decide)⟩

/-- C10 — Reserved-key collision: an attribute keyed `time`, `level` or
`message` is assigned into the same field map after the standard fields, so
the marshalled object carries that key exactly once, bound to the (last)
attribute value; whenever that value differs from the standard field's value,
the entry's own timestamp/level-name/message is no longer present under that
key. -/
theorem c10_reserved_key_overwrite (e : LogEntry) (k : String)
    (hres : k = "time" ∨ k = "level" ∨ k = "message")
    (hmem : k ∈ e.attrs.map Attr.key) :
    mapGet (buildLogData e) k = lastValueOf k e.attrs ∧
    keyCount (buildLogData e) k = 1 ∧
    ∃ v0, mapGet (baseLogData e) k = some v0 ∧
      ∀ v, lastValueOf k e.attrs = some v → v ≠ v0 →
        mapGet (buildLogData e) k ≠ some v0 := by
  have hget : mapGet (buildLogData e) k = lastValueOf k e.attrs :=
    mapGet_setAll_mem e.attrs (baseLogData e) k hmem
  have hbasend : ((baseLogData e).map Prod.fst).Nodup := by
    have hb : (baseLogData e).map Prod.fst = ["time", "level", "message"] := rfl
    rw [hb]
    decide
  have hnodup : ((buildLogData e).map Prod.fst).Nodup := nodup_keys_setAll e.attrs _ hbasend
  have hsome : ∃ v, lastValueOf k e.attrs = some v := by
    cases hlv : lastValueOf k e.attrs with
    | none => exact absurd hmem ((lastValueOf_none_iff k e.attrs).mp hlv)
    | some v => exact ⟨v, rfl⟩
  obtain ⟨v, hv⟩ := hsome
  have hkmem : k ∈ (buildLogData e).map Prod.fst :=
    mem_keys_of_mapGet _ _ v (by rw [hget, hv])
  refine ⟨hget, List.count_eq_one_of_mem hnodup hkmem, ?_⟩
  have hv0 : ∃ v0, mapGet (baseLogData e) k = some v0 := by
    rcases hres with h | h | h
    · subst h
      exact ⟨_, rfl⟩
    · subst h
      exact ⟨_, rfl⟩
    · subst h
      exact ⟨_, rfl⟩
  obtain ⟨v0, hv0⟩ := hv0
  refine ⟨v0, hv0, ?_⟩
  intro w hw hne hcontra
  rw [hget, hw] at hcontra
  exact hne (Option.some.inj hcontra)

/-- Witness for C10 at `timeAttrEntry` (attribute keyed `time`). -/
theorem c10_reserved_key_overwrite_witness :
    mapGet (buildLogData timeAttrEntry) "time" = lastValueOf "time" timeAttrEntry.attrs ∧
    keyCount (buildLogData timeAttrEntry) "time" = 1 ∧
    ∃ v0, mapGet (baseLogData timeAttrEntry) "time" = some v0 ∧
      ∀ v, lastValueOf "time" timeAttrEntry.attrs = some v → v ≠ v0 →
        mapGet (buildLogData timeAttrEntry) "time" ≠ some v0 :=
  c10_reserved_key_overwrite timeAttrEntry "time" (Or.inl rfl) (by decide)
